import Mathlib

/-!
Verification of the tool-call loop and sandboxed-execution logic of
`src/simple_agent/main.py` (function `run_agent`), as a shallow embedding.

External boundaries are modelled as parameters:
* the LLM provider (`litellm.completion`) is a stream of assistant responses,
  together with the in-place mutation it is documented to perform on the
  `tools` structure it receives;
* `litellm.supports_function_calling(model)` is a boolean parameter;
* `Faker().name()` is a stream of generated names indexed by invocation count;
* `json.loads` is modelled by an executable recursive-descent parser over the
  JSON fragment relevant here (null/true/false/integers/strings/arrays/objects;
  float literals and \u escapes are outside the fragment exercised);
* the docker container run is recorded as the code string handed to it.
-/

/-! ### Python string primitives

`startsWith s pat` : does `pat` occur at the start of `s` (on char lists).
`containsSub s pat` : Python's `pat in s` (substring containment).
`splitFirst s pat` : the two pieces around the FIRST occurrence of `pat` in
`s`, i.e. Python's `s.split(pat, maxsplit=1)` returning `[a, b]` as
`some (a, b)`, and `none` when `pat` does not occur (Python returns `[s]`). -/

def startsWith (s pat : List Char) : Bool :=
  match pat, s with
  | [], _ => true
  | _ :: _, [] => false
  | p :: ps, c :: cs => c == p && startsWith cs ps

def containsSub : List Char → List Char → Bool
  | [], pat => startsWith [] pat
  | c :: cs, pat => startsWith (c :: cs) pat || containsSub cs pat

def splitFirst : List Char → List Char → Option (List Char × List Char)
  | [], pat => if startsWith [] pat then some ([], ([] : List Char).drop pat.length) else none
  | c :: cs, pat =>
      if startsWith (c :: cs) pat then some ([], (c :: cs).drop pat.length)
      else (splitFirst cs pat).map fun p => (c :: p.1, p.2)

/-- The opening delimiter `<execute_python>` (main.py line 155). -/
def openTag : List Char := "<execute_python>".toList

/-- The closing delimiter `</execute_python>` (main.py line 156). -/
def closeTag : List Char := "</execute_python>".toList

/-- The code-block extraction of main.py lines 158-160:
`message_content.split("<execute_python>", maxsplit=1)[1]
  .split("</execute_python>", maxsplit=1)[0]`.
`none` corresponds to the `[1]` IndexError when the opening tag is absent,
which is unreachable under the guard of lines 152-157. -/
def extractCode (content : List Char) : Option (List Char) :=
  match splitFirst content openTag with
  | none => none
  | some p =>
      some (match splitFirst p.2 closeTag with
            | some q => q.1
            | none => p.2)

/-! ### JSON values and `json.loads` -/

inductive Json where
  | null : Json
  | bool (b : Bool) : Json
  | num (n : Int) : Json
  | str (s : String) : Json
  | arr (elems : List Json) : Json
  | obj (fields : List (String × Json)) : Json

/-- Is this the empty JSON object `{}` (the only argument shape accepted by
`make_random_name(**kwargs)`, which declares no parameters)? -/
def isEmptyObj : Json → Bool
  | .obj [] => true
  | _ => false

def isJsonWs (c : Char) : Bool :=
  c == ' ' || c == '\n' || c == '\t' || c == '\r'

def skipWs : List Char → List Char
  | [] => []
  | c :: cs => if isJsonWs c then skipWs cs else c :: cs

/-- Parse a JSON string body (after the opening quote), handling the common
escapes. Returns the decoded characters and the remainder after the closing
quote. -/
def parseStrChars : List Char → Option (List Char × List Char)
  | [] => none
  | '"' :: rest => some ([], rest)
  | '\\' :: e :: rest =>
      let ec : Option Char :=
        if e == '"' then some '"'
        else if e == '\\' then some '\\'
        else if e == '/' then some '/'
        else if e == 'n' then some '\n'
        else if e == 't' then some '\t'
        else if e == 'r' then some '\r'
        else if e == 'b' then some '\x08'
        else if e == 'f' then some '\x0c'
        else none
      match ec with
      | none => none
      | some c => (parseStrChars rest).map fun p => (c :: p.1, p.2)
  | c :: rest => (parseStrChars rest).map fun p => (c :: p.1, p.2)

def takeDigits : List Char → (List Char × List Char)
  | [] => ([], [])
  | c :: cs =>
      if c.isDigit then
        let p := takeDigits cs
        (c :: p.1, p.2)
      else ([], c :: cs)

def digitsToNat (ds : List Char) : Nat :=
  ds.foldl (fun acc c => 10 * acc + (c.toNat - 48)) 0

def parseNum (s : List Char) : Option (Json × List Char) :=
  match s with
  | '-' :: rest =>
      match takeDigits rest with
      | ([], _) => none
      | (ds, r) => some (.num (-(digitsToNat ds : Int)), r)
  | _ =>
      match takeDigits s with
      | ([], _) => none
      | (ds, r) => some (.num (digitsToNat ds : Int), r)

/-- Parser modes: a single JSON value, the elements after `[`, or the fields
after the opening brace. -/
inductive PMode where
  | val
  | elems
  | fields

inductive PRes where
  | v (j : Json)
  | es (l : List Json)
  | fs (l : List (String × Json))

/-- Fuel-based recursive-descent JSON parser. -/
def parseF : Nat → PMode → List Char → Option (PRes × List Char)
  | 0, _, _ => none
  | f + 1, .val, s =>
      let s := skipWs s
      if startsWith s ("null".toList) then some (.v .null, s.drop 4)
      else if startsWith s ("true".toList) then some (.v (.bool true), s.drop 4)
      else if startsWith s ("false".toList) then some (.v (.bool false), s.drop 5)
      else
        match s with
        | [] => none
        | c :: cs =>
            if c == '"' then
              (parseStrChars cs).map fun p => (.v (.str (String.mk p.1)), p.2)
            else if c == '[' then
              let cs' := skipWs cs
              if startsWith cs' ("]".toList) then some (.v (.arr []), cs'.drop 1)
              else
                match parseF f .elems cs' with
                | some (.es l, r) => some (.v (.arr l), r)
                | _ => none
            else if c == '\x7b' then
              let cs' := skipWs cs
              if startsWith cs' ("\x7d".toList) then some (.v (.obj []), cs'.drop 1)
              else
                match parseF f .fields cs' with
                | some (.fs l, r) => some (.v (.obj l), r)
                | _ => none
            else if c == '-' || c.isDigit then
              (parseNum (c :: cs)).map fun p => (.v p.1, p.2)
            else none
  | f + 1, .elems, s =>
      match parseF f .val s with
      | some (.v j, rest) =>
          let r := skipWs rest
          if startsWith r (",".toList) then
            match parseF f .elems (r.drop 1) with
            | some (.es l, r2) => some (.es (j :: l), r2)
            | _ => none
          else if startsWith r ("]".toList) then some (.es [j], r.drop 1)
          else none
      | _ => none
  | f + 1, .fields, s =>
      let s := skipWs s
      match s with
      | '"' :: cs =>
          match parseStrChars cs with
          | none => none
          | some (key, rest) =>
              let r := skipWs rest
              if startsWith r (":".toList) then
                match parseF f .val (r.drop 1) with
                | some (.v j, rest2) =>
                    let r2 := skipWs rest2
                    if startsWith r2 (",".toList) then
                      match parseF f .fields (r2.drop 1) with
                      | some (.fs l, r3) => some (.fs ((String.mk key, j) :: l), r3)
                      | _ => none
                    else if startsWith r2 ("\x7d".toList) then
                      some (.fs [(String.mk key, j)], r2.drop 1)
                    else none
                | _ => none
              else none
      | _ => none

/-! ### Errors raised by `run_agent` -/

inductive AgentError where
  /-- `ValueError` raised at main.py lines 95-97. -/
  | unsupportedModel : AgentError
  /-- `ValueError` raised at main.py lines 115-117, carrying the offending
  function name. -/
  | unknownTool (function_name : String) : AgentError
  /-- `json.JSONDecodeError` raised by `json.loads` at line 119, carrying the
  raw argument string. -/
  | jsonDecodeError (arguments : String) : AgentError
  /-- `TypeError` raised by `function_to_call(**function_args)` at line 120
  when the parsed arguments are not an empty keyword set. -/
  | toolTypeError (function_name : String) : AgentError
deriving DecidableEq

/-- The message of the two `ValueError`s raised by the source itself. -/
def errorMessage : AgentError → String
  | .unsupportedModel => "You must choose a model that supports function calling"
  | .unknownTool n => "Requested to call unrecognized function " ++ n
  | .jsonDecodeError _ => "JSONDecodeError"
  | .toolTypeError _ => "TypeError"

/-- `json.loads` on an argument string (main.py line 119). -/
def jsonLoads (s : String) : Except AgentError Json :=
  match parseF (2 * s.length + 8) .val s.toList with
  | some (.v j, rest) =>
      if skipWs rest = [] then .ok j else .error (.jsonDecodeError s)
  | _ => .error (.jsonDecodeError s)

/-- Does the string parse as JSON at all? -/
def jsonOk (s : String) : Bool :=
  match jsonLoads s with
  | .ok _ => true
  | .error _ => false

/-- Does the string parse as the empty JSON object? -/
def argsOk (s : String) : Bool :=
  match jsonLoads s with
  | .ok j => isEmptyObj j
  | .error _ => false

/-! ### Data model of `run_agent` -/

/-- A Tool Call Request inside an assistant message
(`tool_call.id`, `tool_call.function.name`, `tool_call.function.arguments`). -/
structure ToolCall where
  id : String
  name : String
  arguments : String
deriving DecidableEq

/-- An assistant message as returned by the provider
(`response.choices[0].message`). `tool_calls = []` models both `None` and an
empty list, which have identical (falsy) behaviour in the loop condition. -/
structure RespMessage where
  content : Option String
  tool_calls : List ToolCall
deriving DecidableEq

/-- One entry of the conversation history `messages`. -/
inductive Message where
  | user (content : String) : Message
  | assistant (m : RespMessage) : Message
  | tool (tool_call_id : String) (name : String) (content : String) : Message
deriving DecidableEq

/-- A Tool Descriptor (one entry of the global `TOOLS` list). -/
structure ToolFunctionDecl where
  name : String
  description : String
  parameters : Json

structure ToolDecl where
  type : String
  function : ToolFunctionDecl

/-- The global `TOOLS` list of main.py lines 11-20. -/
def TOOLS : List ToolDecl :=
  [{ type := "function",
     function :=
       { name := "make_random_name",
         description := "Generate a random name",
         parameters := .obj [("type", .str "object"), ("properties", .obj [])] } }]

mutual

/-- `copy.deepcopy` on a JSON-like value: rebuilds every node, so the result
shares no mutable structure with the input. -/
def deepcopyJson : Json → Json
  | .null => .null
  | .bool b => .bool b
  | .num n => .num n
  | .str s => .str s
  | .arr l => .arr (deepcopyJsonList l)
  | .obj l => .obj (deepcopyJsonPairs l)

def deepcopyJsonList : List Json → List Json
  | [] => []
  | j :: js => deepcopyJson j :: deepcopyJsonList js

def deepcopyJsonPairs : List (String × Json) → List (String × Json)
  | [] => []
  | (k, j) :: js => (k, deepcopyJson j) :: deepcopyJsonPairs js

end

def deepcopyTools (ts : List ToolDecl) : List ToolDecl :=
  ts.map fun t =>
    { type := t.type,
      function :=
        { name := t.function.name,
          description := t.function.description,
          parameters := deepcopyJson t.function.parameters } }

/-- main.py lines 110-112: the names of the registered function tools. -/
def possible_functions : List String :=
  (TOOLS.filter fun tool => tool.type == "function").map fun tool => tool.function.name

/-- The LLM provider boundary: `responses n` is the assistant message returned
by the (n+1)-st `litellm.completion` call, and `mutate n` is the in-place
mutation litellm performs on the `tools` structure handed to that call
(litellm is documented to mutate it; the source passes `deepcopy(TOOLS)`
precisely for this reason, see the comment at main.py line 98). -/
structure Provider where
  responses : Nat → RespMessage
  mutate : Nat → List ToolDecl → List ToolDecl

/-- `make_random_name(**function_args)` (main.py lines 118-120): the only
registered tool.  `faker` is the stream of names produced by `Faker().name()`,
indexed by invocation count `k`.  The function declares no parameters, so any
non-empty keyword set (or a non-mapping) raises `TypeError`. -/
def callGlobal (faker : Nat → String) (k : Nat) (name : String) (args : Json) :
    Except AgentError (String × Nat) :=
  if name == "make_random_name" then
    if isEmptyObj args then .ok (faker k, k + 1) else .error (.toolTypeError name)
  else
    -- unreachable after the possible_functions membership guard
    .error (.unknownTool name)

/-- The `for tool_call in message.tool_calls` body (main.py lines 113-128).
Returns the updated history, the invocation trace (name, raw arguments), the
faker counter, and the error that aborted the loop, if any. -/
def processCalls (faker : Nat → String) :
    List ToolCall → List Message → List (String × String) → Nat →
    (List Message × List (String × String) × Nat × Option AgentError)
  | [], msgs, inv, k => (msgs, inv, k, none)
  | tc :: rest, msgs, inv, k =>
      if possible_functions.contains tc.name = false then
        (msgs, inv, k, some (.unknownTool tc.name))
      else
        match jsonLoads tc.arguments with
        | .error e => (msgs, inv, k, some e)
        | .ok args =>
            match callGlobal faker k tc.name args with
            | .error e => (msgs, inv, k, some e)
            | .ok p =>
                processCalls faker rest
                  (msgs ++ [.tool tc.id tc.name p.1])
                  (inv ++ [(tc.name, tc.arguments)]) p.2

/-- Loop state: the history, the round counter `callbacks`, the number of
`litellm.completion` calls made so far, the faker invocation counter, the
invocation trace, the `tools` values passed to (and mutated copies returned
by) each completion call, and the current assistant response. -/
structure LoopSt where
  messages : List Message
  callbacks : Nat
  calls : Nat
  fakerIdx : Nat
  invocations : List (String × String)
  toolsPassed : List (List ToolDecl)
  mutated : List (List ToolDecl)
  response : RespMessage

/-- One `litellm.completion(model, messages, tools=deepcopy(TOOLS),
tool_choice="auto")` call (main.py lines 99-104, 129-134, 143-148): the
provider receives a fresh deep copy of `TOOLS` and may mutate it in place;
the mutated copy is discarded by the caller. -/
def doCompletion (prov : Provider) (st : LoopSt) : LoopSt :=
  let given := deepcopyTools TOOLS
  { st with
    response := prov.responses st.calls,
    calls := st.calls + 1,
    toolsPassed := st.toolsPassed ++ [given],
    mutated := st.mutated ++ [prov.mutate st.calls given] }

/-- The `while` loop of main.py lines 106-135, with explicit fuel.  The fuel is
chosen as `(max_callbacks + 1).toNat` at the call site; the loop condition
`callbacks <= max_callbacks` can hold for at most that many iterations, so the
fuel-exhausted case coincides with the ordinary exit (both return the state
unchanged) and is only reached when the condition is false. -/
def loopGo (prov : Provider) (faker : Nat → String) (max_callbacks : Int) :
    Nat → LoopSt → LoopSt × Option AgentError
  | 0, st => (st, none)
  | fuel + 1, st =>
      if st.response.tool_calls ≠ [] ∧ (st.callbacks : Int) ≤ max_callbacks then
        -- the assistant message is appended to history before the for-loop runs
        match processCalls faker st.response.tool_calls
            (st.messages ++ [Message.assistant st.response]) st.invocations st.fakerIdx with
        | (msgs, inv, k, some e) =>
            ({ st with messages := msgs, invocations := inv, fakerIdx := k }, some e)
        | (msgs, inv, k, none) =>
            -- re-query the provider, then `callbacks += 1` (doCompletion leaves
            -- the callbacks counter untouched, so this reads st.callbacks)
            loopGo prov faker max_callbacks fuel
              { doCompletion prov { st with messages := msgs, invocations := inv, fakerIdx := k }
                  with callbacks := st.callbacks + 1 }
      else (st, none)

/-- The three seed messages of main.py lines 76-94 (exact strings). -/
def initialMessages (prompt : String) : List Message :=
  [.user ("Please include your name if asked. " ++
          "You can get your name using the ``make_random_name`` tool."),
   .user ("\n                If I request code, please return it as python delimited with \"\n                \"<execute_python> and </execute_python> tags.\"\n                "),
   .user prompt]

/-- Python `str` of an `Optional[str]`, as interpolated by the f-string at
main.py line 139 (`None` prints as `"None"`). -/
def pyStr : Option String → String
  | some s => s
  | none => "None"

/-- The reflection prompt of main.py lines 137-141 (exact f-string). -/
def reflectPrompt (last : String) : String :=
  "Please reflect on your last output, which was '" ++ last ++
  "'. If you can improve it, please do so and provide a new response."

/-- The code-execution decision and extraction of main.py lines 152-171:
`some code` when a container run is attempted with `code`, `none` otherwise. -/
def maybeExecute (execute_code : Bool) (content : Option String) : Option String :=
  match content with
  | none => none
  | some s =>
      if execute_code = true ∧ containsSub s.toList openTag = true ∧
          containsSub s.toList closeTag = true then
        (extractCode s.toList).map fun cs => String.mk cs
      else none

/-- Observable outcome of one `run_agent` invocation. -/
structure RunResult where
  /-- `.ok message_content` on normal completion (the printed LLM response),
  `.error e` when the run aborts with a raised exception. -/
  result : Except AgentError (Option String)
  /-- The conversation history at exit (or at the moment of the error). -/
  messages : List Message
  /-- Number of `litellm.completion` calls issued. -/
  completionCalls : Nat
  /-- Tools invoked, in order, with their raw argument strings. -/
  toolInvocations : List (String × String)
  /-- The `tools` value handed to each completion call. -/
  toolsPassed : List (List ToolDecl)
  /-- The (possibly mutated) copies after each completion call. -/
  mutatedCopies : List (List ToolDecl)
  /-- The global `TOOLS` after the run (never assigned by the source). -/
  finalTools : List ToolDecl
  /-- Final value of the `callbacks` round counter. -/
  rounds : Nat
  /-- `some code` iff a sandbox container run was attempted, with the code. -/
  sandboxRun : Option String

/-- Loop state before the first completion call: the seed messages, all
counters zero, no response yet. -/
def seedState (prompt : String) : LoopSt :=
  { messages := initialMessages prompt, callbacks := 0, calls := 0, fakerIdx := 0,
    invocations := [], toolsPassed := [], mutated := [],
    response := { content := none, tool_calls := [] } }

/-- Shallow embedding of `run_agent` (main.py lines 49-173).
`supports_fc` is the result of `litellm.supports_function_calling(model)`. -/
def run_agent (supports_fc : Bool) (prov : Provider) (faker : Nat → String)
    (prompt : String) (max_callbacks : Int) (reflect : Bool)
    (execute_code : Bool) : RunResult :=
  if supports_fc = false then
    { result := .error .unsupportedModel, messages := initialMessages prompt,
      completionCalls := 0, toolInvocations := [], toolsPassed := [],
      mutatedCopies := [], finalTools := TOOLS, rounds := 0, sandboxRun := none }
  else
    match loopGo prov faker max_callbacks (max_callbacks + 1).toNat
        (doCompletion prov (seedState prompt)) with
    | (st, some e) =>
        { result := .error e, messages := st.messages,
          completionCalls := st.calls, toolInvocations := st.invocations,
          toolsPassed := st.toolsPassed, mutatedCopies := st.mutated,
          finalTools := TOOLS, rounds := st.callbacks, sandboxRun := none }
    | (st, none) =>
        let st' :=
          if reflect then
            doCompletion prov
              { st with messages :=
                  st.messages ++ [.user (reflectPrompt (pyStr st.response.content))] }
          else st
        let message_content := st'.response.content
        { result := .ok message_content, messages := st'.messages,
          completionCalls := st'.calls, toolInvocations := st'.invocations,
          toolsPassed := st'.toolsPassed, mutatedCopies := st'.mutated,
          finalTools := TOOLS, rounds := st'.callbacks,
          sandboxRun := maybeExecute execute_code message_content }

/-! ### Derived descriptions used in theorem statements -/

instance {ε α : Type} [DecidableEq ε] [DecidableEq α] : DecidableEq (Except ε α) :=
  fun a b =>
    match a, b with
    | .ok x, .ok y =>
        if h : x = y then .isTrue (by rw [h]) else .isFalse (by simp [h])
    | .error x, .error y =>
        if h : x = y then .isTrue (by rw [h]) else .isFalse (by simp [h])
    | .ok _, .error _ => .isFalse (by simp)
    | .error _, .ok _ => .isFalse (by simp)

/-- A tool-call list is resolvable without error: every call names a
registered function and its arguments parse as the empty JSON object (the
only keyword set `make_random_name` accepts). -/
def goodCalls (tcs : List ToolCall) : Bool :=
  tcs.all fun tc => possible_functions.contains tc.name && argsOk tc.arguments

/-- The `role="tool"` result messages appended for a resolvable tool-call
list, with `k` the faker invocation counter at entry. -/
def toolMsgs (faker : Nat → String) : Nat → List ToolCall → List Message
  | _, [] => []
  | k, tc :: rest => .tool tc.id tc.name (faker k) :: toolMsgs faker (k + 1) rest

/-- The invocation trace of a tool-call list. -/
def invoList (tcs : List ToolCall) : List (String × String) :=
  tcs.map fun tc => (tc.name, tc.arguments)

/-- History appended by `k` successful tool-resolving rounds, starting at
provider response index `ci` and faker counter `fi`. -/
def roundsAcc (prov : Provider) (faker : Nat → String) : Nat → Nat → Nat → List Message
  | _, _, 0 => []
  | ci, fi, k + 1 =>
      (Message.assistant (prov.responses ci) ::
        toolMsgs faker fi (prov.responses ci).tool_calls) ++
      roundsAcc prov faker (ci + 1) (fi + (prov.responses ci).tool_calls.length) k

/-- Invocation trace of `k` successful rounds starting at response index `ci`. -/
def invAcc (prov : Provider) : Nat → Nat → List (String × String)
  | _, 0 => []
  | ci, k + 1 => invoList (prov.responses ci).tool_calls ++ invAcc prov (ci + 1) k

/-- Total number of tool invocations in `k` rounds starting at index `ci`. -/
def toolCount (prov : Provider) : Nat → Nat → Nat
  | _, 0 => 0
  | ci, k + 1 => (prov.responses ci).tool_calls.length + toolCount prov (ci + 1) k

/-- Mutated tool copies produced by the completion calls of `k` rounds. -/
def mutAcc (prov : Provider) : Nat → Nat → List (List ToolDecl)
  | _, 0 => []
  | ci, k + 1 => prov.mutate (ci + 1) (deepcopyTools TOOLS) :: mutAcc prov (ci + 1) k

/-! ### Witness fixtures: a concrete provider and faker -/

def fakerW : Nat → String := fun _ => "Jordan Lee"

/-- A response requesting one `make_random_name` call with arguments `{}`. -/
def respTool : RespMessage :=
  { content := none,
    tool_calls := [{ id := "call_1", name := "make_random_name", arguments := "\x7b\x7d" }] }

/-- A plain text response with no tool calls. -/
def respDone : RespMessage :=
  { content := some "My name is Jordan Lee.", tool_calls := [] }

/-- First response requests a tool, every later one is plain text. -/
def provW : Provider :=
  { responses := fun n => if n = 0 then respTool else respDone,
    mutate := fun _ t => t }

/-- A final answer whose only closing delimiter precedes its first opening
delimiter. -/
def respOdd : RespMessage :=
  { content := some "a</execute_python>b<execute_python>code", tool_calls := [] }

def provOdd : Provider :=
  { responses := fun _ => respOdd, mutate := fun _ t => t }

/-- A tool call naming the registered tool with *valid JSON* arguments that
are nonetheless not the empty object. -/
def respBadArgs : RespMessage :=
  { content := none,
    tool_calls := [{ id := "call_1", name := "make_random_name",
                     arguments := "\x7b\"x\": 1\x7d" }] }

def provCex : Provider :=
  { responses := fun n => if n = 0 then respBadArgs else respDone,
    mutate := fun _ t => t }

def tcGood1 : ToolCall := { id := "c1", name := "make_random_name", arguments := "\x7b\x7d" }

def tcBad : ToolCall := { id := "c2", name := "evil_tool", arguments := "\x7b\x7d" }

def tcGood2 : ToolCall := { id := "c3", name := "make_random_name", arguments := "\x7b\x7d" }

/-- A response whose tool-call list has a resolvable call, then an unknown
one, then another resolvable one. -/
def respMixed : RespMessage :=
  { content := none, tool_calls := [tcGood1, tcBad, tcGood2] }

def provBad : Provider :=
  { responses := fun _ => respMixed, mutate := fun _ t => t }

/-! ### Lemmas: Python string primitives -/

theorem startsWith_append (pat t : List Char) : startsWith (pat ++ t) pat = true := by
  induction pat with
  | nil => cases t <;> rfl
  | cons p ps ih => simp [startsWith, ih]

theorem startsWith_iff {s pat : List Char} :
    startsWith s pat = true ↔ ∃ t, s = pat ++ t := by
  constructor
  · intro h
    induction pat generalizing s with
    | nil => exact ⟨s, rfl⟩
    | cons p ps ih =>
        cases s with
        | nil => simp [startsWith] at h
        | cons c cs =>
            simp only [startsWith, Bool.and_eq_true, beq_iff_eq] at h
            obtain ⟨t, ht⟩ := ih h.2
            exact ⟨t, by simp [h.1, ht]⟩
  · rintro ⟨t, rfl⟩
    exact startsWith_append pat t

theorem containsSub_of_startsWith {s pat : List Char} (h : startsWith s pat = true) :
    containsSub s pat = true := by
  cases s with
  | nil => simpa [containsSub] using h
  | cons c cs => simp [containsSub, h]

theorem containsSub_of_decomp (pat : List Char) :
    ∀ a b, containsSub (a ++ pat ++ b) pat = true := by
  intro a
  induction a with
  | nil =>
      intro b
      exact containsSub_of_startsWith (by simpa using startsWith_append pat b)
  | cons c a' ih =>
      intro b
      have hs : (c :: a') ++ pat ++ b = c :: (a' ++ pat ++ b) := by simp
      rw [hs, containsSub, ih b]
      simp

theorem containsSub_iff {s pat : List Char} :
    containsSub s pat = true ↔ ∃ a b, s = a ++ pat ++ b := by
  constructor
  · intro h
    induction s with
    | nil =>
        simp only [containsSub] at h
        obtain ⟨t, ht⟩ := startsWith_iff.mp h
        rcases List.append_eq_nil.mp ht.symm with ⟨h1, h2⟩
        exact ⟨[], [], by simp [h1]⟩
    | cons c cs ih =>
        simp only [containsSub, Bool.or_eq_true] at h
        rcases h with h | h
        · obtain ⟨t, ht⟩ := startsWith_iff.mp h
          exact ⟨[], t, by simp [ht]⟩
        · obtain ⟨a, b, hab⟩ := ih h
          exact ⟨c :: a, b, by simp [hab]⟩
  · rintro ⟨a, b, rfl⟩
    exact containsSub_of_decomp pat a b

theorem splitFirst_pos {s pat : List Char} (h : startsWith s pat = true) :
    splitFirst s pat = some ([], s.drop pat.length) := by
  cases s with
  | nil => simp [splitFirst, h]
  | cons c cs => simp [splitFirst, h]

theorem splitFirst_at (pat : List Char) :
    ∀ (a b : List Char),
      (∀ j, j < a.length → startsWith ((a ++ pat ++ b).drop j) pat = false) →
      splitFirst (a ++ pat ++ b) pat = some (a, b) := by
  intro a
  induction a with
  | nil =>
      intro b _
      have h := @splitFirst_pos (pat ++ b) pat (startsWith_append pat b)
      simpa [List.drop_left] using h
  | cons c a' ih =>
      intro b hfirst
      have hs : (c :: a') ++ pat ++ b = c :: (a' ++ pat ++ b) := by simp
      have h0 := hfirst 0 (by simp)
      rw [List.drop_zero, hs] at h0
      rw [hs, splitFirst, if_neg (by rw [h0]; simp)]
      have hrec := ih b (fun j hj => by
        have hj1 := hfirst (j + 1) (by simpa using Nat.succ_lt_succ hj)
        rw [hs, List.drop_succ_cons] at hj1
        exact hj1)
      rw [hrec]
      rfl

theorem splitFirst_of_not_contains {s pat : List Char}
    (h : containsSub s pat = false) : splitFirst s pat = none := by
  induction s with
  | nil =>
      simp only [containsSub] at h
      simp [splitFirst, h]
  | cons c cs ih =>
      simp only [containsSub, Bool.or_eq_false_iff] at h
      simp [splitFirst, h.1, ih h.2]

theorem splitFirst_isSome {s pat : List Char} (h : containsSub s pat = true) :
    ∃ p, splitFirst s pat = some p := by
  induction s with
  | nil =>
      simp only [containsSub] at h
      exact ⟨_, splitFirst_pos h⟩
  | cons c cs ih =>
      by_cases hs : startsWith (c :: cs) pat = true
      · exact ⟨_, splitFirst_pos hs⟩
      · simp only [containsSub, Bool.or_eq_true] at h
        rcases h with h | h
        · exact absurd h hs
        · obtain ⟨p, hp⟩ := ih h
          refine ⟨(c :: p.1, p.2), ?_⟩
          rw [splitFirst, if_neg hs, hp]
          rfl

/-! ### Lemmas: tool registry and tool-call processing -/

theorem deepcopyTools_TOOLS : deepcopyTools TOOLS = TOOLS := by
  simp [deepcopyTools, TOOLS, deepcopyJson, deepcopyJsonPairs]

theorem mem_possible {n : String} (h : possible_functions.contains n = true) :
    n = "make_random_name" := by
  have he : possible_functions = ["make_random_name"] := rfl
  rw [he] at h
  simpa using h

theorem argsOk_spec {s : String} (h : argsOk s = true) :
    ∃ j, jsonLoads s = .ok j ∧ isEmptyObj j = true := by
  revert h
  unfold argsOk
  cases hj : jsonLoads s with
  | ok j => intro h; exact ⟨j, rfl, h⟩
  | error e => intro h; exact absurd h (by simp)

theorem processCalls_ok (faker : Nat → String) {tcs : List ToolCall}
    (hg : goodCalls tcs = true) :
    ∀ (msgs : List Message) (inv : List (String × String)) (k : Nat),
      processCalls faker tcs msgs inv k =
        (msgs ++ toolMsgs faker k tcs, inv ++ invoList tcs, k + tcs.length, none) := by
  induction tcs with
  | nil => intro msgs inv k; simp [processCalls, toolMsgs, invoList]
  | cons tc rest ih =>
      intro msgs inv k
      simp only [goodCalls, List.all_cons, Bool.and_eq_true] at hg
      obtain ⟨⟨hname, hargs⟩, hrest⟩ := hg
      obtain ⟨j, hj, hempty⟩ := argsOk_spec hargs
      have hnm := mem_possible hname
      rw [processCalls, if_neg (by rw [hname]; simp), hj]
      simp only [callGlobal, hnm, beq_self_eq_true, if_pos, hempty, if_true]
      rw [ih (by simpa [goodCalls] using hrest)]
      simp only [Prod.mk.injEq]
      refine ⟨?_, ?_, ?_, trivial⟩
      · simp [toolMsgs, hnm, List.append_assoc]
      · simp [invoList, hnm, List.append_assoc]
      · simp only [List.length_cons]
        omega

theorem processCalls_err (faker : Nat → String) {good : List ToolCall}
    (bad : ToolCall) (rest : List ToolCall)
    (hg : goodCalls good = true)
    (hbad : possible_functions.contains bad.name = false) :
    ∀ (msgs : List Message) (inv : List (String × String)) (k : Nat),
      processCalls faker (good ++ bad :: rest) msgs inv k =
        (msgs ++ toolMsgs faker k good, inv ++ invoList good, k + good.length,
          some (.unknownTool bad.name)) := by
  induction good with
  | nil =>
      intro msgs inv k
      rw [List.nil_append, processCalls, if_pos hbad]
      simp [toolMsgs, invoList]
  | cons tc gd ih =>
      intro msgs inv k
      simp only [goodCalls, List.all_cons, Bool.and_eq_true] at hg
      obtain ⟨⟨hname, hargs⟩, hrest⟩ := hg
      obtain ⟨j, hj, hempty⟩ := argsOk_spec hargs
      have hnm := mem_possible hname
      rw [List.cons_append, processCalls, if_neg (by rw [hname]; simp), hj]
      simp only [callGlobal, hnm, beq_self_eq_true, if_pos, hempty, if_true]
      rw [ih (by simpa [goodCalls] using hrest)]
      simp only [Prod.mk.injEq]
      refine ⟨?_, ?_, ?_, trivial⟩
      · simp [toolMsgs, hnm, List.append_assoc]
      · simp [invoList, hnm, List.append_assoc]
      · simp only [List.length_cons]
        omega

/-! ### Lemmas: the while loop -/

theorem loop_exit (prov : Provider) (faker : Nat → String) (mc : Int) {st : LoopSt}
    (h : st.response.tool_calls = []) :
    ∀ fuel, loopGo prov faker mc fuel st = (st, none) := by
  intro fuel
  cases fuel with
  | zero => rfl
  | succ f => rw [loopGo, if_neg (by simp [h])]

theorem round_step (prov : Provider) (faker : Nat → String) (mc : Int)
    (fuel : Nat) (st : LoopSt)
    (h1 : st.response.tool_calls ≠ [])
    (h2 : goodCalls st.response.tool_calls = true)
    (h3 : (st.callbacks : Int) ≤ mc) :
    loopGo prov faker mc (fuel + 1) st =
      loopGo prov faker mc fuel
        { messages := st.messages ++ Message.assistant st.response ::
            toolMsgs faker st.fakerIdx st.response.tool_calls,
          callbacks := st.callbacks + 1,
          calls := st.calls + 1,
          fakerIdx := st.fakerIdx + st.response.tool_calls.length,
          invocations := st.invocations ++ invoList st.response.tool_calls,
          toolsPassed := st.toolsPassed ++ [deepcopyTools TOOLS],
          mutated := st.mutated ++ [prov.mutate st.calls (deepcopyTools TOOLS)],
          response := prov.responses st.calls } := by
  rw [loopGo, if_pos ⟨h1, h3⟩, processCalls_ok faker h2]
  simp only [doCompletion]
  simp [List.append_assoc]

theorem round_fail (prov : Provider) (faker : Nat → String) (mc : Int)
    (fuel : Nat) (st : LoopSt) (good : List ToolCall) (bad : ToolCall)
    (rest : List ToolCall)
    (hdec : st.response.tool_calls = good ++ bad :: rest)
    (hg : goodCalls good = true)
    (hbad : possible_functions.contains bad.name = false)
    (h3 : (st.callbacks : Int) ≤ mc) :
    loopGo prov faker mc (fuel + 1) st =
      ({ st with
          messages := st.messages ++ Message.assistant st.response ::
            toolMsgs faker st.fakerIdx good,
          invocations := st.invocations ++ invoList good,
          fakerIdx := st.fakerIdx + good.length },
        some (.unknownTool bad.name)) := by
  have h1 : st.response.tool_calls ≠ [] := by simp [hdec]
  rw [loopGo, if_pos ⟨h1, h3⟩, hdec, processCalls_err faker bad rest hg hbad]
  simp [List.append_assoc]

theorem loop_callbacks_le (prov : Provider) (faker : Nat → String) (mc : Int) :
    ∀ (fuel : Nat) (st : LoopSt),
      ((loopGo prov faker mc fuel st).1).callbacks ≤ st.callbacks + fuel := by
  intro fuel
  induction fuel with
  | zero => intro st; simp [loopGo]
  | succ f ih =>
      intro st
      rw [loopGo]
      split
      · rcases hp : processCalls faker st.response.tool_calls
            (st.messages ++ [Message.assistant st.response]) st.invocations st.fakerIdx
          with ⟨msgs, inv, k, oe⟩
        cases oe with
        | some e =>
            show st.callbacks ≤ st.callbacks + (f + 1)
            omega
        | none =>
            refine le_trans (ih _) ?_
            show st.callbacks + 1 + f ≤ st.callbacks + (f + 1)
            omega
      · show st.callbacks ≤ st.callbacks + (f + 1)
        omega

theorem loop_good_rounds (prov : Provider) (faker : Nat → String) (mc : Int) :
    ∀ (k : Nat) (st : LoopSt) (fuel ci : Nat),
      st.calls = ci + 1 →
      st.response = prov.responses ci →
      (∀ j, j < k → (prov.responses (ci + j)).tool_calls ≠ [] ∧
          goodCalls (prov.responses (ci + j)).tool_calls = true) →
      k ≤ fuel →
      (∀ j, j < k → ((st.callbacks + j : Nat) : Int) ≤ mc) →
      loopGo prov faker mc fuel st =
        loopGo prov faker mc (fuel - k)
          { messages := st.messages ++ roundsAcc prov faker ci st.fakerIdx k,
            callbacks := st.callbacks + k,
            calls := st.calls + k,
            fakerIdx := st.fakerIdx + toolCount prov ci k,
            invocations := st.invocations ++ invAcc prov ci k,
            toolsPassed := st.toolsPassed ++ List.replicate k (deepcopyTools TOOLS),
            mutated := st.mutated ++ mutAcc prov ci k,
            response := prov.responses (ci + k) } := by
  intro k
  induction k with
  | zero =>
      intro st fuel ci hcalls hresp _ _ _
      obtain ⟨msgs, cb, cl, fi, inv, tp, mu, resp⟩ := st
      simp only [LoopSt.calls] at hcalls
      simp only [LoopSt.response] at hresp
      simp [roundsAcc, invAcc, toolCount, mutAcc, hresp]
  | succ k ihk =>
      intro st fuel ci hcalls hresp hgood hfuel hcb
      cases fuel with
      | zero => exact absurd hfuel (by omega)
      | succ f =>
          have hg0 := hgood 0 (by omega)
          rw [Nat.add_zero] at hg0
          have hstep := round_step prov faker mc f st
            (by rw [hresp]; exact hg0.1) (by rw [hresp]; exact hg0.2)
            (by simpa using hcb 0 (by omega))
          rw [hstep]
          rw [ihk _ f (ci + 1)
            (by simp [hcalls])
            (by simp [hcalls])
            (fun j hj => by
              have hgj := hgood (j + 1) (by omega)
              rwa [show ci + (j + 1) = ci + 1 + j by omega] at hgj)
            (by omega)
            (fun j hj => by
              have hcj := hcb (j + 1) (by omega)
              simp only [LoopSt.callbacks]
              rwa [show st.callbacks + 1 + j = st.callbacks + (j + 1) by omega])]
          rw [Nat.succ_sub_succ]
          congr 1
          rw [hresp, hcalls]
          rw [show st.callbacks + 1 + k = st.callbacks + (k + 1) from by omega]
          rw [show ci + 1 + 1 + k = ci + 1 + (k + 1) from by omega]
          rw [show ci + 1 + k = ci + (k + 1) from by omega]
          simp [roundsAcc, invAcc, toolCount, mutAcc, List.replicate_succ,
            List.append_assoc, Nat.add_assoc]

theorem loop_tools_invar (prov : Provider) (faker : Nat → String) (mc : Int) :
    ∀ (fuel : Nat) (st : LoopSt),
      st.toolsPassed = List.replicate st.calls (deepcopyTools TOOLS) →
      ((loopGo prov faker mc fuel st).1).toolsPassed =
        List.replicate ((loopGo prov faker mc fuel st).1).calls (deepcopyTools TOOLS) := by
  intro fuel
  induction fuel with
  | zero => intro st h; simpa [loopGo] using h
  | succ f ih =>
      intro st h
      rw [loopGo]
      split
      · rcases hp : processCalls faker st.response.tool_calls
            (st.messages ++ [Message.assistant st.response]) st.invocations st.fakerIdx
          with ⟨msgs, inv, k, oe⟩
        cases oe with
        | some e => simpa using h
        | none =>
            apply ih
            simp [doCompletion, h, List.replicate_succ']
      · simpa using h

/-! ### The claims -/

/-- Claim C3: if the capability query reports that the model does not support
function calling, the run fails with the unsupported-model `ValueError`
(message "You must choose a model that supports function calling") and zero
completion calls are issued. -/
theorem C3_unsupported_model_no_calls (prov : Provider) (faker : Nat → String)
    (prompt : String) (mc : Int) (reflect execute_code : Bool) :
    (run_agent false prov faker prompt mc reflect execute_code).result =
        .error .unsupportedModel ∧
    (run_agent false prov faker prompt mc reflect execute_code).completionCalls = 0 ∧
    errorMessage .unsupportedModel =
      "You must choose a model that supports function calling" :=
  ⟨rfl, rfl, rfl⟩

/-- Claim C8: the global `TOOLS` is identical after every run, every completion
call receives a value equal to `TOOLS` (a fresh deep copy of it, which the
provider may mutate at will — the mutated copies are discarded), and the deep
copy is structurally equal to the original. -/
theorem C8_tools_never_mutated (supports_fc : Bool) (prov : Provider)
    (faker : Nat → String) (prompt : String) (mc : Int)
    (reflect execute_code : Bool) :
    (run_agent supports_fc prov faker prompt mc reflect execute_code).finalTools = TOOLS ∧
    (run_agent supports_fc prov faker prompt mc reflect execute_code).toolsPassed =
      List.replicate
        (run_agent supports_fc prov faker prompt mc reflect execute_code).completionCalls
        TOOLS ∧
    deepcopyTools TOOLS = TOOLS := by
  refine ⟨?_, ?_, deepcopyTools_TOOLS⟩
  · unfold run_agent
    by_cases hsf : supports_fc = false
    · rw [if_pos hsf]
    · rw [if_neg hsf]
      rcases hl : loopGo prov faker mc (mc + 1).toNat (doCompletion prov (seedState prompt))
        with ⟨st, oe⟩
      cases oe with
      | some e => rfl
      | none => cases reflect <;> rfl
  · unfold run_agent
    by_cases hsf : supports_fc = false
    · rw [if_pos hsf]
      rfl
    · rw [if_neg hsf]
      have hinv := loop_tools_invar prov faker mc (mc + 1).toNat
        (doCompletion prov (seedState prompt))
        (by simp [doCompletion, seedState, List.replicate])
      rcases hl : loopGo prov faker mc (mc + 1).toNat (doCompletion prov (seedState prompt))
        with ⟨st, oe⟩
      rw [hl] at hinv
      rw [deepcopyTools_TOOLS] at hinv
      cases oe with
      | some e => exact hinv
      | none =>
          cases reflect
          · exact hinv
          · show st.toolsPassed ++ [deepcopyTools TOOLS] = List.replicate (st.calls + 1) TOOLS
            rw [deepcopyTools_TOOLS, List.replicate_succ', hinv]

/-- Claim C1: the loop always terminates with at most `max_callbacks + 1`
tool-resolving rounds (the continuation condition is `callbacks <=
max_callbacks`), and in the boundary case `max_callbacks = 0` with a first
response carrying resolvable tool calls, exactly one round still executes. -/
theorem C1_round_cap (supports_fc : Bool) (prov : Provider) (faker : Nat → String)
    (prompt : String) (reflect execute_code : Bool) (mc : Int) (hmc : 0 ≤ mc) :
    ((run_agent supports_fc prov faker prompt mc reflect execute_code).rounds : Int) ≤
        mc + 1 ∧
    (mc = 0 → supports_fc = true → (prov.responses 0).tool_calls ≠ [] →
      goodCalls (prov.responses 0).tool_calls = true →
      (run_agent supports_fc prov faker prompt mc reflect execute_code).rounds = 1) := by
  constructor
  · unfold run_agent
    by_cases hsf : supports_fc = false
    · rw [if_pos hsf]
      show ((0 : Nat) : Int) ≤ mc + 1
      omega
    · rw [if_neg hsf]
      have hb := loop_callbacks_le prov faker mc ((mc + 1).toNat)
        (doCompletion prov (seedState prompt))
      rcases hl : loopGo prov faker mc (mc + 1).toNat (doCompletion prov (seedState prompt))
        with ⟨st, oe⟩
      rw [hl] at hb
      have hb' : st.callbacks ≤ 0 + (mc + 1).toNat := hb
      cases oe with
      | some e =>
          show ((st.callbacks : Nat) : Int) ≤ mc + 1
          omega
      | none =>
          cases reflect <;>
            · show ((st.callbacks : Nat) : Int) ≤ mc + 1
              omega
  · intro hmc0 hsf h1 hg
    subst hmc0
    subst hsf
    unfold run_agent
    rw [if_neg (by simp)]
    have hstep := round_step prov faker 0 0 (doCompletion prov (seedState prompt))
      h1 hg (by show ((0 : Nat) : Int) ≤ 0; simp)
    have hl : loopGo prov faker 0 ((0 : Int) + 1).toNat (doCompletion prov (seedState prompt)) =
        loopGo prov faker 0 0
          { messages := (doCompletion prov (seedState prompt)).messages ++
              Message.assistant (doCompletion prov (seedState prompt)).response ::
              toolMsgs faker (doCompletion prov (seedState prompt)).fakerIdx
                (doCompletion prov (seedState prompt)).response.tool_calls,
            callbacks := (doCompletion prov (seedState prompt)).callbacks + 1,
            calls := (doCompletion prov (seedState prompt)).calls + 1,
            fakerIdx := (doCompletion prov (seedState prompt)).fakerIdx +
              (doCompletion prov (seedState prompt)).response.tool_calls.length,
            invocations := (doCompletion prov (seedState prompt)).invocations ++
              invoList (doCompletion prov (seedState prompt)).response.tool_calls,
            toolsPassed := (doCompletion prov (seedState prompt)).toolsPassed ++
              [deepcopyTools TOOLS],
            mutated := (doCompletion prov (seedState prompt)).mutated ++
              [prov.mutate (doCompletion prov (seedState prompt)).calls (deepcopyTools TOOLS)],
            response := prov.responses (doCompletion prov (seedState prompt)).calls } :=
      hstep
    rw [hl]
    cases reflect <;> rfl

theorem loop_exit' (prov : Provider) (faker : Nat → String) (mc : Int)
    (fuel : Nat) (st : LoopSt) (h : st.response.tool_calls = []) :
    loopGo prov faker mc fuel st = (st, none) :=
  loop_exit prov faker mc h fuel

theorem maybeExecute_spec (ec : Bool) (C : Option String) :
    maybeExecute ec C ≠ none ↔
      ec = true ∧ ∃ s, C = some s ∧ containsSub s.toList openTag = true ∧
        containsSub s.toList closeTag = true := by
  cases C with
  | none => simp [maybeExecute]
  | some s =>
      by_cases hc : ec = true ∧ containsSub s.toList openTag = true ∧
          containsSub s.toList closeTag = true
      · simp only [maybeExecute, if_pos hc]
        constructor
        · intro _
          exact ⟨hc.1, s, rfl, hc.2.1, hc.2.2⟩
        · intro _
          obtain ⟨p, hp⟩ := splitFirst_isSome hc.2.1
          have hp' : splitFirst s.data openTag = some p := hp
          simp [extractCode, hp']
      · simp only [maybeExecute, if_neg hc]
        constructor
        · intro h
          exact absurd rfl h
        · rintro ⟨h1, s', hs', h2, h3⟩
          cases hs'
          exact absurd ⟨h1, h2, h3⟩ hc

/-- Claim C6: a sandbox run is attempted if and only if `execute_code` is true,
the run completed with a non-absent final text, and that text contains both
the opening and the closing delimiter; in particular `execute_code = false`
never triggers a run. -/
theorem C6_sandbox_trigger_iff (supports_fc : Bool) (prov : Provider)
    (faker : Nat → String) (prompt : String) (mc : Int)
    (reflect execute_code : Bool) :
    (run_agent supports_fc prov faker prompt mc reflect execute_code).sandboxRun ≠ none ↔
      (execute_code = true ∧ ∃ s : String,
        (run_agent supports_fc prov faker prompt mc reflect execute_code).result =
          .ok (some s) ∧
        containsSub s.toList openTag = true ∧
        containsSub s.toList closeTag = true) := by
  unfold run_agent
  by_cases hsf : supports_fc = false
  · rw [if_pos hsf]
    simp
  · rw [if_neg hsf]
    rcases hl : loopGo prov faker mc (mc + 1).toNat (doCompletion prov (seedState prompt))
      with ⟨st, oe⟩
    cases oe with
    | some e => simp [hl]
    | none =>
        cases reflect with
        | false =>
            simp only [hl, Bool.false_eq_true, if_false]
            rw [maybeExecute_spec]
            simp
        | true =>
            simp only [hl, if_true]
            rw [maybeExecute_spec]
            simp

/-- Claim C5: the extracted code is exactly the substring strictly between the
first occurrence of `<execute_python>` and the first occurrence of
`</execute_python>` after it, and only this one block is extracted no matter
what follows (in particular further delimiter pairs inside `q` are ignored).
The two hypotheses state firstness: the opening tag starts at no position
inside `p`, and the closing tag starts at no position inside `m`. -/
theorem C5_extract_first_pair (p m q : List Char)
    (hp : ∀ j, j < p.length →
      startsWith ((p ++ openTag ++ (m ++ closeTag ++ q)).drop j) openTag = false)
    (hm : ∀ j, j < m.length →
      startsWith ((m ++ closeTag ++ q).drop j) closeTag = false) :
    extractCode (p ++ openTag ++ (m ++ closeTag ++ q)) = some m := by
  simp only [extractCode, splitFirst_at openTag p (m ++ closeTag ++ q) hp,
    splitFirst_at closeTag m q hm]

/-- Witness for C5 at the concrete example of the specification: the
extracted code is exactly `print(1)` and the second delimiter pair is
ignored. -/
theorem C5_extract_first_pair_witness :
    (∀ j, j < ("pre ".toList).length →
      startsWith ((("pre ".toList ++ openTag ++ ("print(1)".toList ++ closeTag ++
        " post <execute_python>ignored</execute_python>".toList))).drop j) openTag = false) ∧
    (∀ j, j < ("print(1)".toList).length →
      startsWith ((("print(1)".toList ++ closeTag ++
        " post <execute_python>ignored</execute_python>".toList)).drop j) closeTag = false) ∧
    extractCode
      "pre <execute_python>print(1)</execute_python> post <execute_python>ignored</execute_python>".toList =
      some "print(1)".toList := by
  refine ⟨by decide, by decide, ?_⟩
  have h := C5_extract_first_pair "pre ".toList "print(1)".toList
    " post <execute_python>ignored</execute_python>".toList (by decide) (by decide)
  have he : "pre ".toList ++ openTag ++ ("print(1)".toList ++ closeTag ++
      " post <execute_python>ignored</execute_python>".toList) =
      "pre <execute_python>print(1)</execute_python> post <execute_python>ignored</execute_python>".toList := by
    decide
  rw [he] at h
  exact h

theorem maybeExecute_no_close (p m : List Char) (s : String)
    (hs : s.toList = p ++ openTag ++ m)
    (hcl : containsSub p closeTag = true)
    (hop : ∀ j, j < p.length →
      startsWith ((p ++ openTag ++ m).drop j) openTag = false)
    (hm : containsSub m closeTag = false) :
    maybeExecute true (some s) = some (String.mk m) := by
  have hopen : containsSub s.toList openTag = true := by
    rw [hs]
    exact containsSub_of_decomp openTag p m
  have hclose : containsSub s.toList closeTag = true := by
    obtain ⟨a, b, hab⟩ := containsSub_iff.mp hcl
    rw [hs, hab]
    have hassoc : a ++ closeTag ++ b ++ openTag ++ m =
        a ++ closeTag ++ (b ++ openTag ++ m) := by
      simp [List.append_assoc]
    rw [hassoc]
    exact containsSub_of_decomp closeTag a (b ++ openTag ++ m)
  have h1 : splitFirst s.toList openTag = some (p, m) := by
    rw [hs]
    exact splitFirst_at openTag p m hop
  have h2 : splitFirst m closeTag = none :=
    splitFirst_of_not_contains hm
  have hex : extractCode s.toList = some m := by
    unfold extractCode
    rw [h1]
    simp [h2]
  show (if true = true ∧ containsSub s.toList openTag = true ∧
          containsSub s.toList closeTag = true
        then (extractCode s.toList).map (fun cs => String.mk cs) else none) =
      some (String.mk m)
  rw [if_pos ⟨rfl, hopen, hclose⟩, hex]
  rfl

/-- Claim C10: when `execute_code` is true and the final text contains both
delimiters but its only closing delimiter precedes the first opening
delimiter (`closeTag` occurs inside `p`, not inside `m`), the sandbox run
still triggers and the executed code is the entire remainder `m` of the text
after the first opening delimiter. -/
theorem C10_sandbox_no_closing (supports_fc : Bool) (prov : Provider)
    (faker : Nat → String) (prompt : String) (mc : Int) (reflect : Bool)
    (p m : List Char) (s : String)
    (hres : (run_agent supports_fc prov faker prompt mc reflect true).result = .ok (some s))
    (hs : s.toList = p ++ openTag ++ m)
    (hcl : containsSub p closeTag = true)
    (hop : ∀ j, j < p.length →
      startsWith ((p ++ openTag ++ m).drop j) openTag = false)
    (hm : containsSub m closeTag = false) :
    (run_agent supports_fc prov faker prompt mc reflect true).sandboxRun =
      some (String.mk m) := by
  unfold run_agent at hres ⊢
  by_cases hsf : supports_fc = false
  · rw [if_pos hsf] at hres
    exact absurd hres (by simp)
  · rw [if_neg hsf] at hres ⊢
    rcases hl : loopGo prov faker mc (mc + 1).toNat (doCompletion prov (seedState prompt))
      with ⟨st, oe⟩
    rw [hl] at hres
    cases oe with
    | some e =>
        have hres' : (Except.error e : Except AgentError (Option String)) =
            .ok (some s) := hres
        exact absurd hres' (by simp)
    | none =>
        cases reflect with
        | false =>
            have hres' : (Except.ok st.response.content :
                Except AgentError (Option String)) = .ok (some s) := hres
            have hc := Except.ok.inj hres'
            show maybeExecute true st.response.content = some (String.mk m)
            rw [hc]
            exact maybeExecute_no_close p m s hs hcl hop hm
        | true =>
            have hres' : (Except.ok (prov.responses st.calls).content :
                Except AgentError (Option String)) = .ok (some s) := hres
            have hc := Except.ok.inj hres'
            show maybeExecute true (prov.responses st.calls).content = some (String.mk m)
            rw [hc]
            exact maybeExecute_no_close p m s hs hcl hop hm

/-- Witness for C10: with final text
`a</execute_python>b<execute_python>code`, the sandbox run triggers and
executes exactly `code`. -/
theorem C10_sandbox_no_closing_witness :
    (run_agent true provOdd fakerW "q" 5 false true).result =
      .ok (some "a</execute_python>b<execute_python>code") ∧
    containsSub ("a</execute_python>b".toList) closeTag = true ∧
    containsSub ("code".toList) closeTag = false ∧
    (run_agent true provOdd fakerW "q" 5 false true).sandboxRun = some "code" :=
  ⟨by decide, by decide, by decide,
    C10_sandbox_no_closing true provOdd fakerW "q" 5 false
      "a</execute_python>b".toList "code".toList
      "a</execute_python>b<execute_python>code"
      (by decide) (by decide) (by decide) (by decide) (by decide)⟩

theorem loop_good_run (prov : Provider) (faker : Nat → String) (mc : Int)
    (k : Nat) (st : LoopSt) (fuel ci : Nat)
    (hcalls : st.calls = ci + 1)
    (hresp : st.response = prov.responses ci)
    (hgood : ∀ j, j < k → (prov.responses (ci + j)).tool_calls ≠ [] ∧
        goodCalls (prov.responses (ci + j)).tool_calls = true)
    (hfuel : k ≤ fuel)
    (hcb : ∀ j, j < k → ((st.callbacks + j : Nat) : Int) ≤ mc)
    (hstop : (prov.responses (ci + k)).tool_calls = []) :
    loopGo prov faker mc fuel st =
      ({ messages := st.messages ++ roundsAcc prov faker ci st.fakerIdx k,
         callbacks := st.callbacks + k,
         calls := st.calls + k,
         fakerIdx := st.fakerIdx + toolCount prov ci k,
         invocations := st.invocations ++ invAcc prov ci k,
         toolsPassed := st.toolsPassed ++ List.replicate k (deepcopyTools TOOLS),
         mutated := st.mutated ++ mutAcc prov ci k,
         response := prov.responses (ci + k) }, none) := by
  rw [loop_good_rounds prov faker mc k st fuel ci hcalls hresp hgood hfuel hcb]
  exact loop_exit prov faker mc hstop _

theorem loop_fail_run (prov : Provider) (faker : Nat → String) (mc : Int)
    (k : Nat) (st : LoopSt) (fuel ci : Nat)
    (good : List ToolCall) (bad : ToolCall) (rest : List ToolCall)
    (hcalls : st.calls = ci + 1)
    (hresp : st.response = prov.responses ci)
    (hgood : ∀ j, j < k → (prov.responses (ci + j)).tool_calls ≠ [] ∧
        goodCalls (prov.responses (ci + j)).tool_calls = true)
    (hfuel : k + 1 ≤ fuel)
    (hcb : ∀ j, j < k → ((st.callbacks + j : Nat) : Int) ≤ mc)
    (hdec : (prov.responses (ci + k)).tool_calls = good ++ bad :: rest)
    (hg : goodCalls good = true)
    (hbad : possible_functions.contains bad.name = false)
    (hcbk : ((st.callbacks + k : Nat) : Int) ≤ mc) :
    loopGo prov faker mc fuel st =
      ({ messages := st.messages ++ roundsAcc prov faker ci st.fakerIdx k ++
           Message.assistant (prov.responses (ci + k)) ::
           toolMsgs faker (st.fakerIdx + toolCount prov ci k) good,
         callbacks := st.callbacks + k,
         calls := st.calls + k,
         fakerIdx := st.fakerIdx + toolCount prov ci k + good.length,
         invocations := st.invocations ++ invAcc prov ci k ++ invoList good,
         toolsPassed := st.toolsPassed ++ List.replicate k (deepcopyTools TOOLS),
         mutated := st.mutated ++ mutAcc prov ci k,
         response := prov.responses (ci + k) },
        some (.unknownTool bad.name)) := by
  rw [loop_good_rounds prov faker mc k st fuel ci hcalls hresp hgood (by omega) hcb]
  obtain ⟨f, hf⟩ : ∃ f, fuel - k = f + 1 := ⟨fuel - k - 1, by omega⟩
  rw [hf]
  rw [round_fail prov faker mc f
    { messages := st.messages ++ roundsAcc prov faker ci st.fakerIdx k,
      callbacks := st.callbacks + k,
      calls := st.calls + k,
      fakerIdx := st.fakerIdx + toolCount prov ci k,
      invocations := st.invocations ++ invAcc prov ci k,
      toolsPassed := st.toolsPassed ++ List.replicate k (deepcopyTools TOOLS),
      mutated := st.mutated ++ mutAcc prov ci k,
      response := prov.responses (ci + k) }
    good bad rest hdec hg hbad hcbk]

/-- Claim C2 (amended): for every provider sequence whose first `k ≤
max_callbacks + 1` responses carry only known-tool calls with arguments
parsing to the *empty JSON object* (the only keyword set the registry's sole
tool accepts), followed by a response with no tool calls, the loop (with
reflection disabled) terminates normally and the final printed text is the
content of that first tool-free response, after exactly `k + 1` completion
calls. -/
theorem C2_amended_good_sequences (prov : Provider) (faker : Nat → String)
    (prompt : String) (ec : Bool) (mc : Int) (k : Nat)
    (hmc : 0 ≤ mc) (hk : (k : Int) ≤ mc + 1)
    (hgood : ∀ j, j < k → (prov.responses j).tool_calls ≠ [] ∧
      goodCalls (prov.responses j).tool_calls = true)
    (hstop : (prov.responses k).tool_calls = []) :
    (run_agent true prov faker prompt mc false ec).result =
      .ok ((prov.responses k).content) ∧
    (run_agent true prov faker prompt mc false ec).completionCalls = k + 1 := by
  unfold run_agent
  rw [if_neg (by simp)]
  rw [loop_good_run prov faker mc k (doCompletion prov (seedState prompt))
    ((mc + 1).toNat) 0 rfl rfl
    (fun j hj => by simpa using hgood j hj)
    (by omega)
    (fun j hj => by
      show ((0 + j : Nat) : Int) ≤ mc
      omega)
    (by simpa using hstop)]
  constructor
  · show Except.ok (prov.responses (0 + k)).content = .ok ((prov.responses k).content)
    simp
  · show 0 + 1 + k = k + 1
    omega

/-- Witness for the amended C2 on a concrete one-round sequence: the tool
is resolved once, the loop exits on the second (tool-free) response, and the
final text is that response's content after two completion calls. -/
theorem C2_amended_good_sequences_witness :
    (∀ j, j < 1 → (provW.responses j).tool_calls ≠ [] ∧
      goodCalls (provW.responses j).tool_calls = true) ∧
    (provW.responses 1).tool_calls = [] ∧
    (run_agent true provW fakerW "What is your name?" 5 false false).result =
      .ok ((provW.responses 1).content) ∧
    (run_agent true provW fakerW "What is your name?" 5 false false).completionCalls = 2 :=
  ⟨by decide, by decide,
    (C2_amended_good_sequences provW fakerW "What is your name?" false 5 1
      (by decide) (by decide) (by decide) (by decide)).1,
    (C2_amended_good_sequences provW fakerW "What is your name?" false 5 1
      (by decide) (by decide) (by decide) (by decide)).2⟩

/-- Claim C2 counterexample: a single tool-call-bearing response (well within
`max_callbacks + 1 = 6`) naming only the known tool `make_random_name` with
the *valid-JSON* arguments `{"x": 1}` — yet the run aborts with the
`TypeError` from `make_random_name(**{"x": 1})` instead of terminating
normally with the provider's tool-free response `"done"`. -/
theorem C2_claim_counterexample :
    ((provCex.responses 0).tool_calls.all fun tc =>
        possible_functions.contains tc.name && jsonOk tc.arguments) = true ∧
    (provCex.responses 0).tool_calls ≠ [] ∧
    (provCex.responses 1).tool_calls = [] ∧
    (run_agent true provCex fakerW "q" 5 false false).result =
      .error (.toolTypeError "make_random_name") ∧
    (run_agent true provCex fakerW "q" 5 false false).result ≠
      .ok ((provCex.responses 1).content) :=
  ⟨by decide, by decide, by decide, by decide, by decide⟩

/-- Claim C4: if, in any round the cap permits, the provider's response names an
unregistered function (after a prefix of resolvable calls), the run aborts
with the `ValueError` naming that function ("Requested to call unrecognized
function ..."), and no completion call is made after the detection: the total
is the `k + 1` calls issued before it. -/
theorem C4_unknown_tool_aborts (prov : Provider) (faker : Nat → String)
    (prompt : String) (reflect ec : Bool) (mc : Int) (k : Nat)
    (good : List ToolCall) (bad : ToolCall) (rest : List ToolCall)
    (hk : (k : Int) ≤ mc)
    (hgood : ∀ j, j < k → (prov.responses j).tool_calls ≠ [] ∧
      goodCalls (prov.responses j).tool_calls = true)
    (hdec : (prov.responses k).tool_calls = good ++ bad :: rest)
    (hg : goodCalls good = true)
    (hbad : possible_functions.contains bad.name = false) :
    (run_agent true prov faker prompt mc reflect ec).result =
      .error (.unknownTool bad.name) ∧
    (run_agent true prov faker prompt mc reflect ec).completionCalls = k + 1 ∧
    errorMessage (.unknownTool bad.name) =
      "Requested to call unrecognized function " ++ bad.name := by
  unfold run_agent
  rw [if_neg (by simp)]
  rw [loop_fail_run prov faker mc k (doCompletion prov (seedState prompt))
    ((mc + 1).toNat) 0 good bad rest rfl rfl
    (fun j hj => by simpa using hgood j hj)
    (by omega)
    (fun j hj => by
      show ((0 + j : Nat) : Int) ≤ mc
      omega)
    (by simpa using hdec)
    hg hbad
    (by
      show ((0 + k : Nat) : Int) ≤ mc
      omega)]
  refine ⟨rfl, ?_, rfl⟩
  show 0 + 1 + k = k + 1
  omega

/-- Witness for C4: the run aborts naming `evil_tool` after exactly the
one completion call issued before detection. -/
theorem C4_unknown_tool_aborts_witness :
    goodCalls [tcGood1] = true ∧
    possible_functions.contains tcBad.name = false ∧
    (provBad.responses 0).tool_calls = [tcGood1] ++ tcBad :: [tcGood2] ∧
    (run_agent true provBad fakerW "q" 5 false false).result =
      .error (.unknownTool "evil_tool") ∧
    (run_agent true provBad fakerW "q" 5 false false).completionCalls = 1 :=
  ⟨by decide, by decide, by decide,
    (C4_unknown_tool_aborts provBad fakerW "q" false false 5 0 [tcGood1] tcBad [tcGood2]
      (by decide) (by decide) (by decide) (by decide) (by decide)).1,
    (C4_unknown_tool_aborts provBad fakerW "q" false false 5 0 [tcGood1] tcBad [tcGood2]
      (by decide) (by decide) (by decide) (by decide) (by decide)).2.1⟩

/-- Claim C9: failure on an unknown tool is not atomic: at the moment the error
is raised, the assistant message of the failing round has already been
appended to the history, every tool call before the first unknown one has
already been invoked (in provider order) and its `role="tool"` result message
— carrying the originating `tool_call_id` and tool name — appended; nothing
is rolled back.  The history and invocation trace at the error are exactly
the `k` completed rounds plus the partial failing round. -/
theorem C9_unknown_tool_partial_effects (prov : Provider) (faker : Nat → String)
    (prompt : String) (reflect ec : Bool) (mc : Int) (k : Nat)
    (good : List ToolCall) (bad : ToolCall) (rest : List ToolCall)
    (hk : (k : Int) ≤ mc)
    (hgood : ∀ j, j < k → (prov.responses j).tool_calls ≠ [] ∧
      goodCalls (prov.responses j).tool_calls = true)
    (hdec : (prov.responses k).tool_calls = good ++ bad :: rest)
    (hg : goodCalls good = true)
    (hbad : possible_functions.contains bad.name = false) :
    (run_agent true prov faker prompt mc reflect ec).messages =
      initialMessages prompt ++ roundsAcc prov faker 0 0 k ++
        Message.assistant (prov.responses k) ::
        toolMsgs faker (toolCount prov 0 k) good ∧
    (run_agent true prov faker prompt mc reflect ec).toolInvocations =
      invAcc prov 0 k ++ invoList good ∧
    (run_agent true prov faker prompt mc reflect ec).result =
      .error (.unknownTool bad.name) := by
  unfold run_agent
  rw [if_neg (by simp)]
  rw [loop_fail_run prov faker mc k (doCompletion prov (seedState prompt))
    ((mc + 1).toNat) 0 good bad rest rfl rfl
    (fun j hj => by simpa using hgood j hj)
    (by omega)
    (fun j hj => by
      show ((0 + j : Nat) : Int) ≤ mc
      omega)
    (by simpa using hdec)
    hg hbad
    (by
      show ((0 + k : Nat) : Int) ≤ mc
      omega)]
  refine ⟨?_, ?_, rfl⟩
  · show initialMessages prompt ++ roundsAcc prov faker 0 0 k ++
        Message.assistant (prov.responses (0 + k)) ::
        toolMsgs faker (0 + toolCount prov 0 k) good =
      initialMessages prompt ++ roundsAcc prov faker 0 0 k ++
        Message.assistant (prov.responses k) ::
        toolMsgs faker (toolCount prov 0 k) good
    simp
  · show ([] : List (String × String)) ++ invAcc prov 0 k ++ invoList good =
      invAcc prov 0 k ++ invoList good
    simp

/-- Witness for C9: at the error, the history holds the three seed
messages, the assistant message of the failing round, and the single tool
result for the call before the unknown one; exactly that call was invoked. -/
theorem C9_unknown_tool_partial_effects_witness :
    goodCalls [tcGood1] = true ∧
    possible_functions.contains tcBad.name = false ∧
    (provBad.responses 0).tool_calls = [tcGood1] ++ tcBad :: [tcGood2] ∧
    (run_agent true provBad fakerW "q" 5 false false).messages =
      initialMessages "q" ++ roundsAcc provBad fakerW 0 0 0 ++
        Message.assistant (provBad.responses 0) ::
        toolMsgs fakerW (toolCount provBad 0 0) [tcGood1] ∧
    (run_agent true provBad fakerW "q" 5 false false).toolInvocations =
      [("make_random_name", "\x7b\x7d")] :=
  ⟨by decide, by decide, by decide,
    (C9_unknown_tool_partial_effects provBad fakerW "q" false false 5 0
      [tcGood1] tcBad [tcGood2]
      (by decide) (by decide) (by decide) (by decide) (by decide)).1,
    by
      have h := (C9_unknown_tool_partial_effects provBad fakerW "q" false false 5 0
        [tcGood1] tcBad [tcGood2]
        (by decide) (by decide) (by decide) (by decide) (by decide)).2.1
      rw [h]
      decide⟩

/-- Claim C7: when `reflect` is true and the main loop exits normally with
answer `c`, exactly one additional completion call is made; it is preceded by
appending a single synthetic user message whose text is the critique prompt
with the prior answer interpolated verbatim; no tool calls of the reflection
response are resolved (the invocation trace is unchanged); and the raw
reflection response becomes the final message. -/
theorem C7_reflection_round (supports_fc : Bool) (prov : Provider)
    (faker : Nat → String) (prompt : String) (ec : Bool) (mc : Int)
    (c : Option String)
    (hok : (run_agent supports_fc prov faker prompt mc false ec).result = .ok c) :
    (run_agent supports_fc prov faker prompt mc true ec).completionCalls =
      (run_agent supports_fc prov faker prompt mc false ec).completionCalls + 1 ∧
    (run_agent supports_fc prov faker prompt mc true ec).messages =
      (run_agent supports_fc prov faker prompt mc false ec).messages ++
        [Message.user (reflectPrompt (pyStr c))] ∧
    (run_agent supports_fc prov faker prompt mc true ec).toolInvocations =
      (run_agent supports_fc prov faker prompt mc false ec).toolInvocations ∧
    (run_agent supports_fc prov faker prompt mc true ec).result =
      .ok ((prov.responses
        (run_agent supports_fc prov faker prompt mc false ec).completionCalls).content) ∧
    reflectPrompt (pyStr c) =
      "Please reflect on your last output, which was '" ++ pyStr c ++
        "'. If you can improve it, please do so and provide a new response." := by
  unfold run_agent at hok ⊢
  by_cases hsf : supports_fc = false
  · rw [if_pos hsf] at hok
    exact absurd hok (by simp)
  · rw [if_neg hsf] at hok
    simp only [if_neg hsf]
    rcases hl : loopGo prov faker mc (mc + 1).toNat (doCompletion prov (seedState prompt))
      with ⟨st, oe⟩
    rw [hl] at hok
    cases oe with
    | some e =>
        have hok' : (Except.error e : Except AgentError (Option String)) = .ok c := hok
        exact absurd hok' (by simp)
    | none =>
        have hok' : (Except.ok st.response.content :
            Except AgentError (Option String)) = .ok c := hok
        have hc := Except.ok.inj hok'
        refine ⟨rfl, ?_, rfl, rfl, rfl⟩
        show st.messages ++ [Message.user (reflectPrompt (pyStr st.response.content))] =
          st.messages ++ [Message.user (reflectPrompt (pyStr c))]
        rw [hc]

/-- Witness for C7 on a concrete run: one tool round, then the loop exits
with `"My name is Jordan Lee."`; the reflection run makes a third completion
call, appends the critique prompt containing that answer verbatim, and uses
the raw reflection response as the final message. -/
theorem C7_reflection_round_witness :
    (run_agent true provW fakerW "q" 5 false false).result =
      .ok (some "My name is Jordan Lee.") ∧
    (run_agent true provW fakerW "q" 5 true false).completionCalls =
      (run_agent true provW fakerW "q" 5 false false).completionCalls + 1 ∧
    (run_agent true provW fakerW "q" 5 true false).messages =
      (run_agent true provW fakerW "q" 5 false false).messages ++
        [Message.user (reflectPrompt "My name is Jordan Lee.")] ∧
    (run_agent true provW fakerW "q" 5 true false).result =
      .ok ((provW.responses
        (run_agent true provW fakerW "q" 5 false false).completionCalls).content) :=
  ⟨by decide,
    (C7_reflection_round true provW fakerW "q" false 5
      (some "My name is Jordan Lee.") (by decide)).1,
    (C7_reflection_round true provW fakerW "q" false 5
      (some "My name is Jordan Lee.") (by decide)).2.1,
    (C7_reflection_round true provW fakerW "q" false 5
      (some "My name is Jordan Lee.") (by decide)).2.2.2.1⟩

/-- Witness for C1 at the boundary `max_callbacks = 0` with a first
response carrying a resolvable tool call: exactly one tool-resolving round
executes. -/
theorem C1_round_cap_witness :
    (0 : Int) ≤ 0 ∧
    ((run_agent true provW fakerW "q" 0 false false).rounds : Int) ≤ 0 + 1 ∧
    (run_agent true provW fakerW "q" 0 false false).rounds = 1 :=
  ⟨by decide,
    (C1_round_cap true provW fakerW "q" false false 0 (by decide)).1,
    (C1_round_cap true provW fakerW "q" false false 0 (by decide)).2 rfl rfl
      (by decide) (by decide)⟩
